import Mathlib

/-!
Shallow embedding of the `utmdash` dashboard core (src/components/Dashboard.tsx,
with the near-duplicate copy in src/unnamed/part_000): column classifier
(`findHeader`), filterable columns, unique-value lists, filter-state toggling,
the row filter, the KPI aggregator (`stats`) and the chart aggregator
(`chartData`).  JavaScript numbers are modelled as rationals (ℚ); JavaScript
scalar cell values as `Value` (string or number), an absent field as `none`.
-/

namespace UtmDash

/-- A scalar cell value: a string or a number (JS number modelled as ℚ). -/
inductive Value where
  | str : String → Value
  | num : ℚ → Value
deriving DecidableEq, Repr

/-- A row is a record keyed by column name; field access is assoc-list lookup. -/
abbrev Row := List (String × Value)

/-- The dataset handed to the dashboard: ordered headers and rows. -/
structure Dataset where
  headers : List String
  rows : List Row

/-- `listStarts l pat`: `pat` is an initial segment of `l` (char-wise `==`). -/
def listStarts : List Char → List Char → Bool
  | _, [] => true
  | [], _ :: _ => false
  | a :: as, b :: bs => a == b && listStarts as bs

/-- `listHasSub l pat`: `pat` occurs contiguously inside `l`. -/
def listHasSub : List Char → List Char → Bool
  | [], pat => pat.isEmpty
  | l@(_ :: t), pat => listStarts l pat || listHasSub t pat

/-- JavaScript `s.includes(pat)`: substring containment. -/
def strIncludes (s pat : String) : Bool :=
  listHasSub s.data pat.data

/-- ASCII lowercasing, modelling JavaScript `toLowerCase()` on this data. -/
def lowerStr (s : String) : String :=
  String.mk (s.data.map Char.toLower)

/-- Whitespace for JavaScript string trimming. -/
def isJsSpace (c : Char) : Bool :=
  c == ' ' || c == '\t' || c == '\n' || c == '\r'

/-- JavaScript `s.trim()` on the character list. -/
def trimChars (cs : List Char) : List Char :=
  ((cs.dropWhile isJsSpace).reverse.dropWhile isJsSpace).reverse

/-- Value of a digit string, `none` if any character is not a decimal digit
(the empty list yields `some 0`). -/
def digitsToNat (cs : List Char) : Option Nat :=
  if cs.all Char.isDigit then
    some (cs.foldl (fun a c => 10 * a + (c.toNat - 48)) 0)
  else
    none

/-- Parse an unsigned decimal literal (`"12"`, `"12.5"`, `".5"`, `"5."`) into ℚ;
`none` when it is not such a literal. -/
def parseUnsigned (cs : List Char) : Option ℚ :=
  match cs.splitOn '.' with
  | [w] => (digitsToNat w).bind fun n => if w.isEmpty then none else some (n : ℚ)
  | [w, f] =>
      if w.isEmpty && f.isEmpty then none
      else
        (digitsToNat w).bind fun n =>
          (digitsToNat f).bind fun m =>
            some ((n : ℚ) + (m : ℚ) / (10 : ℚ) ^ f.length)
  | _ => none

/-- Parse an optionally signed decimal literal into ℚ. -/
def parseSigned (cs : List Char) : Option ℚ :=
  match cs with
  | '-' :: t => (parseUnsigned t).map (fun q => -q)
  | '+' :: t => parseUnsigned t
  | _ => parseUnsigned cs

/-- JavaScript `Number(x)` on an optional cell value, restricted to plain
decimal literals; `none` stands for NaN.  `Number(undefined)` is NaN, a number
is itself, a string is trimmed and the empty string converts to 0. -/
def jsNumber : Option Value → Option ℚ
  | none => none
  | some (Value.num q) => some q
  | some (Value.str s) =>
      let t := trimChars s.data
      if t.isEmpty then some 0 else parseSigned t

/-- JavaScript `x || 0` applied to a `Number(...)` result: NaN becomes 0. -/
def numOr0 (o : Option ℚ) : ℚ :=
  o.getD 0

/-- Render `m / 10^k` (with `k` fraction digits) as a decimal numeral. -/
def decStrOfNatPair (m k : Nat) : String :=
  if k = 0 then toString m
  else
    let s := toString m
    let s := if k + 1 ≤ s.length then s else String.mk (List.replicate (k + 1 - s.length) '0') ++ s
    let cut := s.length - k
    String.mk (s.data.take cut) ++ "." ++ String.mk (s.data.drop cut)

/-- JavaScript `String(n)` for a number, on the terminating-decimal fragment:
integers render as decimal integers, other terminating decimals with the least
number of fraction digits; a non-terminating rational (not a JS double) falls
back to a fraction rendering. -/
def jsStrOfRat (q : ℚ) : String :=
  if q = 0 then "0"
  else
    let sign := if q < 0 then "-" else ""
    let a : ℚ := |q|
    match (List.range 100).find? (fun k => (a * (10 : ℚ) ^ k).den = 1) with
    | some k => sign ++ decStrOfNatPair (a * (10 : ℚ) ^ k).num.natAbs k
    | none => sign ++ toString a.num.natAbs ++ "/" ++ toString a.den

/-- JavaScript `String(x)` on an optional cell value (`String(undefined)` is
`"undefined"`). -/
def jsString : Option Value → String
  | none => "undefined"
  | some (Value.str s) => s
  | some (Value.num q) => jsStrOfRat q

/-- JavaScript `String(x ?? '')`: an absent field coerces to the empty string. -/
def jsStringD (v : Option Value) : String :=
  jsString (some (v.getD (Value.str "")))

/-- `row[h]`: field access on a row. -/
def getField (row : Row) (h : String) : Option Value :=
  List.lookup h row

/-- One header matches the keyword list: lowercased equality or containment
with some keyword (`h.toLowerCase() === k.toLowerCase() ||
h.toLowerCase().includes(k.toLowerCase())`). -/
def headerMatches (h : String) (keys : List String) : Bool :=
  keys.any fun k => lowerStr h == lowerStr k || strIncludes (lowerStr h) (lowerStr k)

/-- The column classifier `findHeader`: first header (in dataset order) that
matches some keyword. -/
def findHeader (headers : List String) (keys : List String) : Option String :=
  headers.find? fun h => headerMatches h keys

/-- Keyword lists used by the component for the five roles. -/
def fatKeys : List String := ["faturamento", "receita", "faturado"]

def gasKeys : List String := ["gastos", "gasto", "custo", "investimento", "spend"]

def roasKeys : List String := ["roas"]

def dataKeys : List String := ["data", "periodo"]

def anuncioKeys : List String := ["nome do ad", "anúncio", "ad name"]

/-- The fixed topic substrings that make a header filterable. -/
def filterTopics : List String :=
  ["data", "nome do ad", "bm-ca-pf (teste)", "status", "campanha", "ad set"]

/-- `filterableColumns`: headers whose lowercased text contains a topic. -/
def filterableColumns (d : Dataset) : List String :=
  d.headers.filter fun h => filterTopics.any fun t => strIncludes (lowerStr h) t

/-- Insertion-ordered set formation: keep each string's first occurrence. -/
def dedupFirstAux (seen : List String) : List String → List String
  | [] => []
  | a :: t => if a ∈ seen then dedupFirstAux seen t else a :: dedupFirstAux (a :: seen) t

/-- Keep the first occurrence of each string, dropping later duplicates
(JavaScript `Array.from(new Set(...))`). -/
def dedupFirst (l : List String) : List String :=
  dedupFirstAux [] l

/-- JavaScript `Array.prototype.sort()` on strings: lexicographic ascending. -/
def sortStr (l : List String) : List String :=
  List.insertionSort (fun a b => a ≤ b) l

/-- `uniqueValuesMap[col]`: the multi-select value list for one column —
stringified values (absent coerced to `""`), empty strings removed,
deduplicated, sorted. -/
def uniqueValues (d : Dataset) (col : String) : List String :=
  let vals := dedupFirst ((d.rows.map fun r => jsStringD (getField r col)).filter fun v => v ≠ "")
  sortStr vals

/-- The filter state: column name to accepted values, in object-key order. -/
abbrev FilterState := List (String × List String)

/-- Read a key from the filter-state object (`prev[column]`). -/
def objGet (fs : FilterState) (col : String) : Option (List String) :=
  List.lookup col fs

/-- Write a key on the filter-state object (`{ ...prev, [column]: v }`): the
first existing binding is replaced in place, otherwise the key is appended. -/
def objSet : FilterState → String → List String → FilterState
  | [], col, v => [(col, v)]
  | e :: t, col, v => if e.1 = col then (col, v) :: t else e :: objSet t col v

/-- `toggleFilter`: remove the value if present (all occurrences), else append
it; an emptied selection is stored as the empty array. -/
def toggleFilter (fs : FilterState) (col val : String) : FilterState :=
  let current := (objGet fs col).getD []
  let updated :=
    if current.contains val then current.filter fun v => v ≠ val
    else current ++ [val]
  objSet fs col (if 0 < updated.length then updated else [])

/-- The column-filter conjunct of the row predicate: every filter-state entry
with a non-empty value list must contain the row's stringified value. -/
def matchesFilters (fs : FilterState) (row : Row) : Bool :=
  fs.all fun e => e.2.isEmpty || e.2.contains (jsString (getField row e.1))

/-- The search conjunct: empty term, or some header's stringified value
contains the term case-insensitively. -/
def matchesSearch (headers : List String) (term : String) (row : Row) : Bool :=
  term == "" || headers.any fun h =>
    strIncludes (lowerStr (jsString (getField row h))) (lowerStr term)

/-- `filteredRows`: the rows passing both conjuncts, in dataset order. -/
def filteredRows (d : Dataset) (fs : FilterState) (term : String) : List Row :=
  d.rows.filter fun row => matchesFilters fs row && matchesSearch d.headers term row

/-- Accumulator of the KPI fold: revenue, spend, ROAS sum, ROAS count. -/
structure Acc where
  fat : ℚ
  gas : ℚ
  roasSum : ℚ
  roasCount : Nat
deriving DecidableEq, Repr

/-- The ROAS admission guard of the KPI fold: `!isNaN(Number(v)) && v !== ''`.
The strict inequality with `''` only rules out the empty-string value. -/
def roasAdmit (v : Option Value) : Bool :=
  (jsNumber v).isSome && v ≠ some (Value.str "")

/-- One iteration of the KPI fold over a row. -/
def statsStep (colFat colGas colRoas : String) (acc : Acc) (row : Row) : Acc :=
  let f := numOr0 (jsNumber (getField row colFat))
  let g := numOr0 (jsNumber (getField row colGas))
  let v := getField row colRoas
  let base : Acc := ⟨acc.fat + f, acc.gas + g, acc.roasSum, acc.roasCount⟩
  if roasAdmit v then
    ⟨base.fat, base.gas, base.roasSum + numOr0 (jsNumber v), base.roasCount + 1⟩
  else base

/-- The five KPI outputs. -/
structure Stats where
  fat : ℚ
  gas : ℚ
  imp : ℚ
  luc : ℚ
  roas : ℚ
deriving DecidableEq, Repr

/-- The KPI aggregator `stats`: fold the filtered rows, then
`imp = fat * 0.06`, `luc = fat - gas - imp`, and the average ROAS with its
`roasCount > 0` branch and the `fat / gas` fallback. -/
def stats (d : Dataset) (fs : FilterState) (term : String) : Stats :=
  let colFat := (findHeader d.headers fatKeys).getD ""
  let colGas := (findHeader d.headers gasKeys).getD ""
  let colRoas := (findHeader d.headers roasKeys).getD ""
  let a := (filteredRows d fs term).foldl (statsStep colFat colGas colRoas) ⟨0, 0, 0, 0⟩
  let imp := a.fat * (6 / 100 : ℚ)
  let luc := a.fat - a.gas - imp
  let avgRoas :=
    if 0 < a.roasCount then a.roasSum / (a.roasCount : ℚ)
    else if 0 < a.gas then a.fat / a.gas else 0
  ⟨a.fat, a.gas, imp, luc, avgRoas⟩

/-- The chart grouping key: `String(row[chartCat]) || 'Outros'`. -/
def groupKey (row : Row) (cat : String) : String :=
  let s := jsString (getField row cat)
  if s = "" then "Outros" else s

/-- `aggregated[k] = (aggregated[k] || 0) + v` on an insertion-ordered object:
update the first binding in place, or append the key. -/
def updAssoc : List (String × ℚ) → String → ℚ → List (String × ℚ)
  | [], k, v => [(k, v)]
  | e :: t, k, v => if e.1 = k then (k, e.2 + v) :: t else e :: updAssoc t k v

/-- The chart aggregator `chartData`: empty when either axis is unset,
otherwise group-and-sum, sort descending by value, keep the first 15. -/
def chartData (rows : List Row) (cat met : String) : List (String × ℚ) :=
  if cat = "" || met = "" then []
  else
    let agg := rows.foldl
      (fun m row => updAssoc m (groupKey row cat) (numOr0 (jsNumber (getField row met)))) []
    (List.insertionSort (fun a b => b.2 ≤ a.2) agg).take 15

end UtmDash

namespace UtmDash

/-! ### Helper lemmas -/

theorem contains_iff {α : Type} [BEq α] [LawfulBEq α] (l : List α) (a : α) :
    l.contains a = true ↔ a ∈ l :=
  List.elem_iff

/-- The column-filter conjunct, characterised as a proposition. -/
theorem matchesFilters_iff (fs : FilterState) (row : Row) :
    matchesFilters fs row = true ↔
      ∀ e ∈ fs, e.2 ≠ [] → jsString (getField row e.1) ∈ e.2 := by
  simp [matchesFilters, List.all_eq_true, Bool.or_eq_true, List.isEmpty_iff,
    contains_iff, or_iff_not_imp_left]

/-- The search conjunct, characterised as a proposition. -/
theorem matchesSearch_iff (hd : List String) (term : String) (row : Row) :
    matchesSearch hd term row = true ↔
      (term ≠ "" → ∃ h ∈ hd, strIncludes (lowerStr (jsString (getField row h))) (lowerStr term) = true) := by
  simp [matchesSearch, List.any_eq_true, Bool.or_eq_true, or_iff_not_imp_left]

/-- The spec-side predicate of the row filter: every non-empty filter entry
contains the row's stringified value, and a non-empty search term occurs
case-insensitively in some header's stringified value. -/
def rowPasses (d : Dataset) (fs : FilterState) (term : String) (row : Row) : Prop :=
  (∀ e ∈ fs, e.2 ≠ [] → jsString (getField row e.1) ∈ e.2) ∧
  (term ≠ "" → ∃ h ∈ d.headers, strIncludes (lowerStr (jsString (getField row h))) (lowerStr term) = true)

instance (d : Dataset) (fs : FilterState) (term : String) (row : Row) :
    Decidable (rowPasses d fs term row) := by
  unfold rowPasses
  infer_instance

/-- C2: `filteredRows` returns exactly the rows satisfying the column-filter
and search predicates, as a sublist of the input rows (hence order-preserving
and without duplication). -/
theorem claim2_filteredRows_spec (d : Dataset) (fs : FilterState) (term : String) :
    filteredRows d fs term = d.rows.filter (fun row => decide (rowPasses d fs term row)) ∧
    (filteredRows d fs term).Sublist d.rows := by
  constructor
  · unfold filteredRows
    apply List.filter_congr
    intro row _
    rw [Bool.eq_iff_iff, Bool.and_eq_true, decide_eq_true_eq,
      matchesFilters_iff, matchesSearch_iff]
    simp only [rowPasses]
  · exact List.filter_sublist _

/-- C7: with the cleared filter state and the empty search term, the row
filter returns the dataset's rows unchanged. -/
theorem claim7_clear_all (d : Dataset) : filteredRows d [] "" = d.rows := by
  unfold filteredRows
  apply List.filter_eq_self.mpr
  intro row _
  simp [matchesFilters, matchesSearch]

/-- C4: the KPI aggregator's tax is 6% of summed revenue and its profit is
revenue minus spend minus tax, so the balance identity holds exactly. -/
theorem claim4_tax_profit (d : Dataset) (fs : FilterState) (term : String) :
    (stats d fs term).imp = (6 / 100 : ℚ) * (stats d fs term).fat ∧
    (stats d fs term).fat - (stats d fs term).gas - (stats d fs term).imp -
      (stats d fs term).luc = 0 := by
  have h1 : (stats d fs term).imp = (stats d fs term).fat * (6 / 100 : ℚ) := rfl
  have h2 : (stats d fs term).luc =
      (stats d fs term).fat - (stats d fs term).gas - (stats d fs term).imp := rfl
  constructor
  · rw [h1]; ring
  · rw [h2]; ring

theorem roasAdmit_empty : roasAdmit (some (Value.str "")) = false := by
  with_unfolding_all rfl

/-- C6: the empty-string ROAS value coerces to the number 0 (not NaN), yet the
separate strict-inequality guard rejects it, so such a row contributes neither
to the ROAS sum nor to the ROAS count. -/
theorem claim6_empty_roas (cf cg cr : String) (acc : Acc) (row : Row)
    (h : getField row cr = some (Value.str "")) :
    jsNumber (some (Value.str "")) = some 0 ∧
    roasAdmit (some (Value.str "")) = false ∧
    (statsStep cf cg cr acc row).roasSum = acc.roasSum ∧
    (statsStep cf cg cr acc row).roasCount = acc.roasCount := by
  refine ⟨by with_unfolding_all rfl, roasAdmit_empty, ?_, ?_⟩ <;>
    simp [statsStep, h, roasAdmit_empty]

theorem claim6_witness :
    (statsStep "f" "g" "ROAS" ⟨1, 2, 3, 4⟩ [("ROAS", Value.str "")]).roasSum = 3 ∧
    (statsStep "f" "g" "ROAS" ⟨1, 2, 3, 4⟩ [("ROAS", Value.str "")]).roasCount = 4 := by
  have h := claim6_empty_roas "f" "g" "ROAS" ⟨1, 2, 3, 4⟩ [("ROAS", Value.str "")] (by
    with_unfolding_all rfl)
  exact ⟨h.2.2.1, h.2.2.2⟩

/-- The claim-side matching of one header against the keyword list:
lowercased equality with, or containment of, some keyword. -/
def claimMatches (h : String) (keys : List String) : Prop :=
  ∃ k ∈ keys, lowerStr h = lowerStr k ∨ strIncludes (lowerStr h) (lowerStr k) = true

theorem headerMatches_iff (h : String) (keys : List String) :
    headerMatches h keys = true ↔ claimMatches h keys := by
  simp [headerMatches, claimMatches, List.any_eq_true, Bool.or_eq_true]

/-- C5: the classifier returns the first header, in dataset order, matching
some keyword (headers outer, keywords inner — any keyword qualifies a
header), and no match exactly when no header qualifies. -/
theorem claim5_findHeader_spec (headers keys : List String) :
    (∀ h, findHeader headers keys = some h ↔
      claimMatches h keys ∧
        ∃ pre post, headers = pre ++ h :: post ∧ ∀ g ∈ pre, ¬ claimMatches g keys) ∧
    (findHeader headers keys = none ↔ ∀ h ∈ headers, ¬ claimMatches h keys) := by
  constructor
  · intro h
    rw [findHeader, List.find?_eq_some]
    simp only [headerMatches_iff, Bool.not_eq_eq_eq_not, Bool.not_true,
      ← Bool.not_eq_true, headerMatches_iff]
  · rw [findHeader, List.find?_eq_none]
    simp only [headerMatches_iff]

/-- The worked example dataset of the spec (§8). -/
def exD : Dataset :=
  ⟨["Data", "Nome do Ad", "Faturamento", "Gastos", "ROAS"],
   [[("Data", Value.str "01/01"), ("Nome do Ad", Value.str "A"),
     ("Faturamento", Value.num 1000), ("Gastos", Value.num 200), ("ROAS", Value.num 5)],
    [("Data", Value.str "02/01"), ("Nome do Ad", Value.str "B"),
     ("Faturamento", Value.num 500), ("Gastos", Value.num 100), ("ROAS", Value.num 5)]]⟩

/-- C8: on the spec's worked example, with empty filter state and search term,
the KPI aggregator yields revenue 1500, spend 300, tax 90, profit 1110 and
average ROAS 5. -/
theorem claim8_example : stats exD [] "" = ⟨1500, 300, 90, 1110, 5⟩ := by
  with_unfolding_all rfl

end UtmDash

namespace UtmDash

/-- Sum of a column's numeric coercions (`Number(row[col]) || 0`) over rows. -/
def sumCol (rows : List Row) (col : String) : ℚ :=
  (rows.map fun r => numOr0 (jsNumber (getField r col))).sum

/-- The guard-admitted ROAS values of a row list, in row order. -/
def roasVals (rows : List Row) (col : String) : List ℚ :=
  (rows.filter fun r => roasAdmit (getField r col)).map fun r =>
    numOr0 (jsNumber (getField r col))

/-- One step of the KPI fold, written as explicit field updates. -/
theorem statsStep_eq (cf cg cr : String) (acc : Acc) (row : Row) :
    statsStep cf cg cr acc row =
      ⟨acc.fat + numOr0 (jsNumber (getField row cf)),
       acc.gas + numOr0 (jsNumber (getField row cg)),
       acc.roasSum + (if roasAdmit (getField row cr) then numOr0 (jsNumber (getField row cr)) else 0),
       acc.roasCount + (if roasAdmit (getField row cr) then 1 else 0)⟩ := by
  by_cases hr : roasAdmit (getField row cr) = true
  · simp [statsStep, hr]
  · simp [statsStep, hr]

/-- The KPI fold computes the two column sums and the guard-admitted ROAS
values' sum and count, on top of the starting accumulator. -/
theorem statsFold_spec (cf cg cr : String) (rows : List Row) (acc : Acc) :
    rows.foldl (statsStep cf cg cr) acc =
      ⟨acc.fat + sumCol rows cf,
       acc.gas + sumCol rows cg,
       acc.roasSum + (roasVals rows cr).sum,
       acc.roasCount + (roasVals rows cr).length⟩ := by
  induction rows generalizing acc with
  | nil => simp [sumCol, roasVals]
  | cons r t ih =>
    rw [List.foldl_cons, statsStep_eq, ih]
    by_cases hr : roasAdmit (getField r cr) = true
    · simp [sumCol, roasVals, List.filter_cons, hr, Acc.mk.injEq, add_assoc]
      omega
    · simp [sumCol, roasVals, List.filter_cons, hr, Acc.mk.injEq, add_assoc]

/-- Closed form of the KPI aggregator in terms of column sums and the
guard-admitted ROAS values of the filtered rows. -/
theorem stats_eq (d : Dataset) (fs : FilterState) (term : String) :
    stats d fs term =
      ⟨sumCol (filteredRows d fs term) ((findHeader d.headers fatKeys).getD ""),
       sumCol (filteredRows d fs term) ((findHeader d.headers gasKeys).getD ""),
       sumCol (filteredRows d fs term) ((findHeader d.headers fatKeys).getD "") * (6 / 100 : ℚ),
       sumCol (filteredRows d fs term) ((findHeader d.headers fatKeys).getD "") -
         sumCol (filteredRows d fs term) ((findHeader d.headers gasKeys).getD "") -
         sumCol (filteredRows d fs term) ((findHeader d.headers fatKeys).getD "") * (6 / 100 : ℚ),
       if 0 < (roasVals (filteredRows d fs term) ((findHeader d.headers roasKeys).getD "")).length then
         (roasVals (filteredRows d fs term) ((findHeader d.headers roasKeys).getD "")).sum /
           ((roasVals (filteredRows d fs term) ((findHeader d.headers roasKeys).getD "")).length : ℚ)
       else if 0 < sumCol (filteredRows d fs term) ((findHeader d.headers gasKeys).getD "") then
         sumCol (filteredRows d fs term) ((findHeader d.headers fatKeys).getD "") /
           sumCol (filteredRows d fs term) ((findHeader d.headers gasKeys).getD "")
       else 0⟩ := by
  simp only [stats]
  rw [statsFold_spec]
  simp

/-- C1 exactly as the claim states it: when the classifier maps a ROAS column,
`avgROAS` is the arithmetic mean of that column's guard-admitted values over
the filtered rows; when it maps none, the `revenue/spend` fallback (the mean
of an empty value list reads as 0 under rational division by zero). -/
def claimC1Stated (d : Dataset) (fs : FilterState) (term : String) : Prop :=
  (∀ col, findHeader d.headers roasKeys = some col →
    (stats d fs term).roas =
      (roasVals (filteredRows d fs term) col).sum /
        ((roasVals (filteredRows d fs term) col).length : ℚ)) ∧
  (findHeader d.headers roasKeys = none →
    (stats d fs term).roas =
      if 0 < (stats d fs term).gas then (stats d fs term).fat / (stats d fs term).gas else 0)

/-- A dataset whose ROAS column is mapped but holds no numeric value. -/
def cexD : Dataset :=
  ⟨["Faturamento", "Gastos", "ROAS"],
   [[("Faturamento", Value.num 1000), ("Gastos", Value.num 200), ("ROAS", Value.str "abc")]]⟩

/-- C1 is false as stated: on `cexD` the ROAS column is mapped, yet the code
falls back to `revenue/spend = 5` because the guard admits no row, while the
stated mean over the admitted rows is the empty mean. -/
theorem claim1_counterexample : ¬ claimC1Stated cexD [] "" := by
  intro h
  have h2 := h.1 "ROAS" (by with_unfolding_all rfl)
  revert h2
  with_unfolding_all decide

/-- C1 amended: `avgROAS` is the mean of the guard-admitted ROAS values of the
filtered rows when at least one row is admitted, and otherwise (no ROAS column
mapped, or none of its values admitted) falls back to `revenue/spend` when
spend is positive, else 0. -/
theorem claim1_amended (d : Dataset) (fs : FilterState) (term : String) :
    (0 < (roasVals (filteredRows d fs term) ((findHeader d.headers roasKeys).getD "")).length →
      (stats d fs term).roas =
        (roasVals (filteredRows d fs term) ((findHeader d.headers roasKeys).getD "")).sum /
          ((roasVals (filteredRows d fs term) ((findHeader d.headers roasKeys).getD "")).length : ℚ)) ∧
    ((roasVals (filteredRows d fs term) ((findHeader d.headers roasKeys).getD "")).length = 0 →
      (stats d fs term).roas =
        if 0 < (stats d fs term).gas then (stats d fs term).fat / (stats d fs term).gas else 0) := by
  rw [stats_eq]
  constructor
  · intro hpos
    simp [hpos]
  · intro hzero
    simp [hzero]

theorem claim1_amended_witness :
    0 < (roasVals (filteredRows exD [] "") ((findHeader exD.headers roasKeys).getD "")).length ∧
    (stats exD [] "").roas =
      (roasVals (filteredRows exD [] "") ((findHeader exD.headers roasKeys).getD "")).sum /
        ((roasVals (filteredRows exD [] "") ((findHeader exD.headers roasKeys).getD "")).length : ℚ) := by
  have hpos : 0 < (roasVals (filteredRows exD [] "")
      ((findHeader exD.headers roasKeys).getD "")).length := by
    with_unfolding_all decide
  exact ⟨hpos, (claim1_amended exD [] "").1 hpos⟩

end UtmDash

namespace UtmDash

/-- Value at a key in the aggregation object, 0 when absent. -/
def assocVal : List (String × ℚ) → String → ℚ
  | [], _ => 0
  | e :: t, k => if e.1 = k then e.2 else assocVal t k

theorem assocVal_updAssoc (m : List (String × ℚ)) (k k2 : String) (v : ℚ) :
    assocVal (updAssoc m k v) k2 =
      if k2 = k then assocVal m k2 + v else assocVal m k2 := by
  induction m with
  | nil =>
    by_cases h : k2 = k
    · simp [updAssoc, assocVal, h]
    · have h2 : ¬ k = k2 := fun hc => h hc.symm
      simp [updAssoc, assocVal, h, h2]
  | cons e t ih =>
    by_cases he : e.1 = k
    · by_cases hk : k2 = k
      · simp [updAssoc, assocVal, he, hk]
      · have h2 : ¬ k = k2 := fun hc => hk hc.symm
        simp [updAssoc, assocVal, he, hk, h2]
    · by_cases hk2 : e.1 = k2
      · have hkk : ¬ k2 = k := fun hc => he (hk2.trans hc)
        simp [updAssoc, assocVal, he, hk2, hkk]
      · simp [updAssoc, assocVal, he, hk2, ih]

/-- The value a chart group is claimed to carry: the sum of the metric
column's numeric coercions over the rows with that group key. -/
def groupSum (rows : List Row) (cat met : String) (k : String) : ℚ :=
  ((rows.filter fun r => groupKey r cat = k).map fun r =>
    numOr0 (jsNumber (getField r met))).sum

theorem foldUpd_assocVal (cat met : String) (rows : List Row)
    (m : List (String × ℚ)) (k : String) :
    assocVal (rows.foldl
        (fun m row => updAssoc m (groupKey row cat) (numOr0 (jsNumber (getField row met)))) m) k =
      assocVal m k + groupSum rows cat met k := by
  induction rows generalizing m with
  | nil => simp [groupSum]
  | cons r t ih =>
    rw [List.foldl_cons, ih, assocVal_updAssoc]
    by_cases hk : k = groupKey r cat
    · simp [groupSum, List.filter_cons, hk, add_assoc]
    · have h2 : ¬ groupKey r cat = k := fun hc => hk hc.symm
      simp [groupSum, List.filter_cons, hk, h2]

theorem keys_updAssoc (m : List (String × ℚ)) (k : String) (v : ℚ) :
    (updAssoc m k v).map Prod.fst =
      if k ∈ m.map Prod.fst then m.map Prod.fst else m.map Prod.fst ++ [k] := by
  induction m with
  | nil => simp [updAssoc]
  | cons e t ih =>
    by_cases he : e.1 = k
    · simp [updAssoc, he]
    · have h2 : ¬ k = e.1 := fun hc => he hc.symm
      by_cases hm : k ∈ t.map Prod.fst <;> simp [updAssoc, he, ih, hm, h2]

theorem nodupKeys_updAssoc (m : List (String × ℚ)) (k : String) (v : ℚ)
    (h : (m.map Prod.fst).Nodup) : ((updAssoc m k v).map Prod.fst).Nodup := by
  rw [keys_updAssoc]
  by_cases hm : k ∈ m.map Prod.fst
  · simpa [hm] using h
  · simp [hm, List.nodup_append, h]

theorem nodupKeys_foldUpd (cat met : String) (rows : List Row)
    (m : List (String × ℚ)) (h : (m.map Prod.fst).Nodup) :
    (((rows.foldl
        (fun m row => updAssoc m (groupKey row cat) (numOr0 (jsNumber (getField row met)))) m)).map
      Prod.fst).Nodup := by
  induction rows generalizing m with
  | nil => exact h
  | cons r t ih => exact ih _ (nodupKeys_updAssoc _ _ _ h)

theorem mem_eq_assocVal (m : List (String × ℚ)) (h : (m.map Prod.fst).Nodup)
    (p : String × ℚ) (hp : p ∈ m) : p.2 = assocVal m p.1 := by
  induction m with
  | nil => cases hp
  | cons e t ih =>
    rcases List.mem_cons.mp hp with hpe | hpt
    · simp [assocVal, hpe]
    · have h1 : e.1 ∉ t.map Prod.fst := (List.nodup_cons.mp (by simpa using h)).1
      have h2 : ¬ e.1 = p.1 := fun hc => h1 (hc ▸ List.mem_map_of_mem Prod.fst hpt)
      simp only [assocVal, h2, if_neg]
      exact ih (List.nodup_cons.mp (by simpa using h)).2 hpt

/-- C3: the chart aggregator returns at most 15 entries, sorted non-increasing
by value; every returned entry's value is the sum of the metric column's
numeric coercions over the filtered rows of its group; and an unset category
or metric axis yields the empty sequence. -/
theorem claim3_chartData_spec (rows : List Row) (cat met : String) :
    (chartData rows cat met).length ≤ 15 ∧
    List.Pairwise (fun a b : String × ℚ => b.2 ≤ a.2) (chartData rows cat met) ∧
    (∀ p ∈ chartData rows cat met, p.2 = groupSum rows cat met p.1) ∧
    chartData rows "" met = [] ∧ chartData rows cat "" = [] := by
  haveI htot : IsTotal (String × ℚ) (fun a b => b.2 ≤ a.2) := ⟨fun a b => le_total b.2 a.2⟩
  haveI htr : IsTrans (String × ℚ) (fun a b => b.2 ≤ a.2) :=
    ⟨fun a b c hab hbc => le_trans hbc hab⟩
  refine ⟨?_, ?_, ?_, by simp [chartData], by simp [chartData]⟩
  · simp only [chartData]
    split
    · simp
    · exact List.length_take_le _ _
  · simp only [chartData]
    split
    · simp
    · exact (List.sorted_insertionSort _ _).sublist (List.take_sublist _ _)
  · intro p hp
    simp only [chartData] at hp
    split at hp
    · cases hp
    · have h1 : p ∈ List.insertionSort (fun a b : String × ℚ => b.2 ≤ a.2)
          (rows.foldl (fun m row =>
            updAssoc m (groupKey row cat) (numOr0 (jsNumber (getField row met)))) []) :=
        (List.take_sublist _ _).subset hp
      have h2 := (List.perm_insertionSort (fun a b : String × ℚ => b.2 ≤ a.2) _).mem_iff.mp h1
      have h3 := mem_eq_assocVal _ (nodupKeys_foldUpd cat met rows [] (by simp)) p h2
      rw [h3, foldUpd_assocVal]
      simp [assocVal]

end UtmDash

namespace UtmDash

theorem claim3_witness :
    ("A", (5 : ℚ)) ∈ chartData exD.rows "Nome do Ad" "ROAS" ∧
    ((("A", (5 : ℚ)) : String × ℚ)).2 = groupSum exD.rows "Nome do Ad" "ROAS" "A" := by
  have hmem : ("A", (5 : ℚ)) ∈ chartData exD.rows "Nome do Ad" "ROAS" := by
    with_unfolding_all decide
  exact ⟨hmem, (claim3_chartData_spec exD.rows "Nome do Ad" "ROAS").2.2.1 _ hmem⟩

theorem mem_dedupFirstAux (l seen : List String) (v : String) :
    v ∈ dedupFirstAux seen l ↔ v ∈ l ∧ v ∉ seen := by
  induction l generalizing seen with
  | nil => simp [dedupFirstAux]
  | cons a t ih =>
    by_cases ha : a ∈ seen
    · rw [dedupFirstAux, if_pos ha, ih]
      constructor
      · rintro ⟨h1, h2⟩
        exact ⟨List.mem_cons_of_mem _ h1, h2⟩
      · rintro ⟨h1, h2⟩
        rcases List.mem_cons.mp h1 with rfl | h3
        · exact absurd ha h2
        · exact ⟨h3, h2⟩
    · rw [dedupFirstAux, if_neg ha]
      constructor
      · intro h1
        rcases List.mem_cons.mp h1 with rfl | h3
        · exact ⟨List.mem_cons_self _ _, ha⟩
        · rcases (ih _).mp h3 with ⟨h4, h5⟩
          exact ⟨List.mem_cons_of_mem _ h4, fun hs => h5 (List.mem_cons_of_mem _ hs)⟩
      · rintro ⟨h1, h2⟩
        rcases List.mem_cons.mp h1 with rfl | h3
        · exact List.mem_cons_self _ _
        · by_cases hva : v = a
          · exact hva ▸ List.mem_cons_self _ _
          · exact List.mem_cons_of_mem _ ((ih _).mpr
              ⟨h3, fun hs => (List.mem_cons.mp hs).elim hva h2⟩)

theorem nodup_dedupFirstAux (l seen : List String) : (dedupFirstAux seen l).Nodup := by
  induction l generalizing seen with
  | nil => simp [dedupFirstAux]
  | cons a t ih =>
    by_cases ha : a ∈ seen
    · rw [dedupFirstAux, if_pos ha]
      exact ih _
    · rw [dedupFirstAux, if_neg ha]
      refine List.nodup_cons.mpr ⟨?_, ih _⟩
      intro hmem
      exact ((mem_dedupFirstAux _ _ _).mp hmem).2 (List.mem_cons_self a seen)

/-- The value list C9 claims: all stringified row values, deduplicated and
sorted — without the empty-string removal the code performs. -/
def claimedUniqueValues (d : Dataset) (col : String) : List String :=
  sortStr (dedupFirst (d.rows.map fun r => jsStringD (getField r col)))

/-- A dataset with a filterable column holding an empty-string value. -/
def d9 : Dataset :=
  ⟨["Status"], [[("Status", Value.str "A")], [("Status", Value.str "")]]⟩

/-- C9 is false as stated: `Status` is filterable on `d9`, but the offered
value list is `["A"]` — the empty-string value is dropped — while the
deduplicated sorted stringified values are `["", "A"]`. -/
theorem claim9_counterexample :
    "Status" ∈ filterableColumns d9 ∧
    uniqueValues d9 "Status" ≠ claimedUniqueValues d9 "Status" := by
  constructor
  · with_unfolding_all decide
  · with_unfolding_all decide

/-- C9 amended: the offered value list is strictly sorted (hence deduplicated,
case-sensitively, and lexicographically sorted) and contains exactly the
non-empty stringified row values of the column (missing fields coerce to the
empty string and are dropped with it). -/
theorem claim9_amended (d : Dataset) (col : String) :
    List.Pairwise (fun a b : String => a < b) (uniqueValues d col) ∧
    (∀ v, v ∈ uniqueValues d col ↔
      v ≠ "" ∧ v ∈ d.rows.map fun r => jsStringD (getField r col)) := by
  haveI : IsTotal String (fun a b : String => a ≤ b) := ⟨le_total⟩
  haveI : IsTrans String (fun a b : String => a ≤ b) := ⟨fun a b c => le_trans⟩
  have hnd : (uniqueValues d col).Nodup := by
    unfold uniqueValues sortStr dedupFirst
    exact ((List.perm_insertionSort _ _).nodup_iff).mpr (nodup_dedupFirstAux _ _)
  constructor
  · have hs : List.Sorted (fun a b : String => a ≤ b) (uniqueValues d col) := by
      unfold uniqueValues sortStr
      exact List.sorted_insertionSort _ _
    exact List.Sorted.lt_of_le hs hnd
  · intro v
    unfold uniqueValues sortStr dedupFirst
    rw [(List.perm_insertionSort _ _).mem_iff, mem_dedupFirstAux]
    simp [List.mem_filter, and_comm]

end UtmDash

namespace UtmDash

theorem ifLength_eq (l : List String) : (if 0 < l.length then l else []) = l := by
  cases l <;> simp

theorem objGet_objSet_self (fs : FilterState) (col : String) (v : List String) :
    objGet (objSet fs col v) col = some v := by
  induction fs with
  | nil => simp [objSet, objGet, List.lookup]
  | cons e t ih =>
    by_cases he : e.1 = col
    · simp [objSet, he, objGet, List.lookup]
    · have hb : (col == e.1) = false := beq_eq_false_iff_ne.mpr fun hc => he hc.symm
      simp only [objSet, he, if_false, objGet, List.lookup, hb]
      exact ih

theorem objSet_objSet (fs : FilterState) (col : String) (a b : List String) :
    objSet (objSet fs col a) col b = objSet fs col b := by
  induction fs with
  | nil => simp [objSet]
  | cons e t ih =>
    by_cases he : e.1 = col
    · simp [objSet, he]
    · simp [objSet, he, ih]

theorem objSet_get_eq (fs : FilterState) (col : String) (v : List String)
    (h : objGet fs col = some v) : objSet fs col v = fs := by
  induction fs with
  | nil => simp [objGet, List.lookup] at h
  | cons e t ih =>
    obtain ⟨e1, e2⟩ := e
    by_cases he : e1 = col
    · subst he
      have hb : (e1 == e1) = true := beq_self_eq_true e1
      simp only [objGet, List.lookup, hb] at h
      simp only [Option.some.injEq] at h
      simp [objSet, ← h]
    · have hb : (col == e1) = false := beq_eq_false_iff_ne.mpr fun hc => he hc.symm
      simp only [objGet, List.lookup, hb] at h
      simp [objSet, he, ih h]

theorem objSet_get_none (fs : FilterState) (col : String) (v : List String)
    (h : objGet fs col = none) : objSet fs col v = fs ++ [(col, v)] := by
  induction fs with
  | nil => simp [objSet]
  | cons e t ih =>
    obtain ⟨e1, e2⟩ := e
    by_cases he : e1 = col
    · subst he
      have hb : (e1 == e1) = true := beq_self_eq_true e1
      simp only [objGet, List.lookup, hb] at h
      cases h
    · have hb : (col == e1) = false := beq_eq_false_iff_ne.mpr fun hc => he hc.symm
      simp only [objGet, List.lookup, hb] at h
      simp [objSet, he, ih h]

/-- Peeling one entry off the column-filter conjunct. -/
theorem matchesFilters_cons (e : String × List String) (l : FilterState) (row : Row) :
    matchesFilters (e :: l) row =
      ((e.2.isEmpty || e.2.contains (jsString (getField row e.1))) && matchesFilters l row) :=
  rfl

/-- Replacing a filter-state binding by a list with the same emptiness and the
same membership leaves the row filter's column conjunct unchanged. -/
theorem matchesFilters_objSet (fs : FilterState) (col : String) (v w : List String) (row : Row)
    (hget : objGet fs col = some w)
    (hemp : v.isEmpty = w.isEmpty)
    (hmem : ∀ s, v.contains s = w.contains s) :
    matchesFilters (objSet fs col v) row = matchesFilters fs row := by
  induction fs with
  | nil => simp [objGet, List.lookup] at hget
  | cons e t ih =>
    obtain ⟨e1, e2⟩ := e
    by_cases he : e1 = col
    · subst he
      have hb : (e1 == e1) = true := beq_self_eq_true e1
      simp only [objGet, List.lookup, hb] at hget
      simp only [Option.some.injEq] at hget
      subst hget
      have hobj : objSet ((e1, e2) :: t) e1 v = (e1, v) :: t := by
        simp [objSet]
      rw [hobj, matchesFilters_cons, matchesFilters_cons]
      rw [show ((e1, v) : String × List String).2 = v from rfl,
        show ((e1, e2) : String × List String).2 = e2 from rfl]
      rw [hemp, hmem]
    · have hb : (col == e1) = false := beq_eq_false_iff_ne.mpr fun hc => he hc.symm
      simp only [objGet, List.lookup, hb] at hget
      have hobj : objSet ((e1, e2) :: t) col v = (e1, e2) :: objSet t col v := by
        simp [objSet, he]
      rw [hobj, matchesFilters_cons, matchesFilters_cons, ih hget]

/-- `toggleFilter` with the emptiness test on the stored payload removed
(an emptied selection is the empty array either way). -/
theorem toggleFilter_eq (fs : FilterState) (col val : String) :
    toggleFilter fs col val =
      objSet fs col
        (if ((objGet fs col).getD []).contains val then
          ((objGet fs col).getD []).filter fun v => v ≠ val
        else ((objGet fs col).getD []) ++ [val]) := by
  simp only [toggleFilter]
  rw [ifLength_eq]

theorem toggle_twice_none (fs : FilterState) (col val : String)
    (h : objGet fs col = none) :
    toggleFilter (toggleFilter fs col val) col val = fs ++ [(col, [])] := by
  rw [toggleFilter_eq fs col val, h, Option.getD_none, if_neg (by simp), List.nil_append]
  rw [toggleFilter_eq, objGet_objSet_self, Option.getD_some]
  have h3 : ([val] : List String).contains val = true := (contains_iff _ _).mpr (by simp)
  rw [if_pos h3]
  rw [show ([val] : List String).filter (fun v => v ≠ val) = [] from by simp]
  rw [objSet_objSet]
  exact objSet_get_none fs col [] h

theorem toggle_twice_mem (fs : FilterState) (col val : String) (cur : List String)
    (h : objGet fs col = some cur) (hval : val ∈ cur) :
    toggleFilter (toggleFilter fs col val) col val =
      objSet fs col ((cur.filter fun v => v ≠ val) ++ [val]) := by
  have hcon : cur.contains val = true := (contains_iff _ _).mpr hval
  rw [toggleFilter_eq fs col val, h, Option.getD_some, if_pos hcon]
  rw [toggleFilter_eq, objGet_objSet_self, Option.getD_some]
  have h3 : (cur.filter fun v => v ≠ val).contains val = false := by
    rw [← Bool.not_eq_true, contains_iff]
    simp
  rw [if_neg (show ¬ (cur.filter fun v => v ≠ val).contains val = true from by
    rw [h3]; exact Bool.false_ne_true), objSet_objSet]

theorem toggle_twice_notMem (fs : FilterState) (col val : String) (cur : List String)
    (h : objGet fs col = some cur) (hval : val ∉ cur) :
    toggleFilter (toggleFilter fs col val) col val = fs := by
  have hcon : cur.contains val = false := by
    rw [← Bool.not_eq_true, contains_iff]
    exact hval
  rw [toggleFilter_eq fs col val, h, Option.getD_some,
    if_neg (show ¬ cur.contains val = true from by rw [hcon]; exact Bool.false_ne_true)]
  rw [toggleFilter_eq, objGet_objSet_self, Option.getD_some]
  have h3 : (cur ++ [val]).contains val = true := (contains_iff _ _).mpr (by simp)
  have h4 : (cur ++ [val]).filter (fun v => v ≠ val) = cur := by
    rw [List.filter_append]
    rw [show List.filter (fun v => v ≠ val) [val] = [] from by simp]
    rw [List.append_nil]
    exact List.filter_eq_self.mpr fun a ha => decide_eq_true fun hc => hval (hc ▸ ha)
  rw [if_pos h3, h4, objSet_objSet]
  exact objSet_get_eq fs col cur h

/-- C10: toggling the same (column, value) pair twice yields a filter state on
which the row filter returns exactly the rows it returned before, for every
dataset and search term (the empty selection left behind imposes no
constraint). -/
theorem claim10_toggle_twice (fs : FilterState) (col val : String)
    (d : Dataset) (term : String) :
    filteredRows d (toggleFilter (toggleFilter fs col val) col val) term =
      filteredRows d fs term := by
  have key : ∀ row, matchesFilters (toggleFilter (toggleFilter fs col val) col val) row =
      matchesFilters fs row := by
    intro row
    cases hget : objGet fs col with
    | none =>
      rw [toggle_twice_none fs col val hget]
      simp [matchesFilters, List.all_append]
    | some cur =>
      by_cases hval : val ∈ cur
      · rw [toggle_twice_mem fs col val cur hget hval]
        apply matchesFilters_objSet fs col _ cur row hget
        · obtain ⟨c, cs, rfl⟩ : ∃ c cs, cur = c :: cs := by
            cases cur with
            | nil => cases hval
            | cons c cs => exact ⟨c, cs, rfl⟩
          simp [List.isEmpty_iff]
        · intro s
          rw [Bool.eq_iff_iff, contains_iff, contains_iff]
          simp only [List.mem_append, List.mem_filter, List.mem_singleton, decide_eq_true_eq]
          constructor
          · rintro (⟨h1, _⟩ | rfl)
            · exact h1
            · exact hval
          · intro h1
            by_cases hs : s = val
            · exact Or.inr hs
            · exact Or.inl ⟨h1, hs⟩
      · rw [toggle_twice_notMem fs col val cur hget hval]
  unfold filteredRows
  apply List.filter_congr
  intro row _
  rw [key]

end UtmDash
